import Mathlib

/-!
Shallow embedding of the `ethers-signers-browser` bridge broker and its
surrounding components, translated from the Rust sources:

* `packages/ethers-signers-browser/src/http/comm.rs`    — the `CommServer` actor
* `packages/ethers-signers-browser/src/http/mod.rs`     — the caller façade (`Server`)
* `packages/ethers-signers-browser/src/http/routes.rs`  — the HTTP routes
* `packages/ethers-signers-browser/src/http/session.rs` — the WebSocket session
* `packages/ethers-signers-browser/src/lib.rs`          — the `BrowserSigner`
* `packages/ethers-signers-browser-frontend/src/ws/messages.rs` — wire types

External Ethereum types (addresses, hashes, transactions, EIP-712 payloads,
signatures) are opaque to every algorithm verified here; they are represented
by `Nat` stand-ins.  External library functions (UTF-8 decoding, EIP-191
hashing, signature parsing) are passed as explicit function parameters.
Randomly generated identifiers (`gen_id`) are supplied as oracle inputs to the
handlers that draw them.  Channel sends are modelled as an explicit effect
list; a Rust `do_send`/`send` becomes one emitted effect.
-/

/-- Stand-in for `ethers::core::abi::Address` (opaque to the broker). -/
abbrev EthAddress : Type := Nat

/-- Stand-in for `ethers::core::types::H256` (opaque to the broker). -/
abbrev H256 : Type := Nat

/-- Stand-in for `TypedTransaction` (opaque to the broker). -/
abbrev TypedTransaction : Type := Nat

/-- Stand-in for `TypedData` (opaque to the broker). -/
abbrev TypedData : Type := Nat

/-- Stand-in for `ethers::core::types::Signature` (opaque: only parsed from a string). -/
abbrev EthSig : Type := Nat

/-- Rust `NativeCurrency` from `ws/messages.rs`. -/
structure NativeCurrency where
  name : String
  symbol : String
  decimals : Nat
deriving DecidableEq

/-- Rust `ChainInfo` from `ws/messages.rs`. -/
structure ChainInfo where
  chain_name : Option String
  rpc_urls : Option (List String)
  icon_urls : Option (List String)
  native_currency : Option NativeCurrency
  block_explorer_urls : Option (List String)
deriving DecidableEq

/-- Rust `HashMap<u64, ChainInfo>` is modelled as an association list. -/
abbrev ChainMap : Type := List (Nat × ChainInfo)

/-- A `Recipient<WSRequest>` (an actix actor address).  The broker only clones
it, sends to it, and compares it for equality, so an abstract identifier
suffices. -/
abbrev WebsocketClient : Type := Nat

/-- Rust `WSRequest` from `comm.rs`: messages the comm server sends to sessions. -/
inductive WSRequest where
  | Init (id : String) (chain_id : Nat) (chains : Option ChainMap)
  | Accounts (id : String)
  | SignBinaryMessage (id : String) (address : EthAddress) (message : H256)
  | SignTextMessage (id : String) (address : EthAddress) (message : String)
  | SignTransaction (id : String) (transaction : TypedTransaction)
  | SignTypedData (id : String) (address : EthAddress) (typed_data : TypedData)
  | Close (reason : String)
deriving DecidableEq

/-- Rust `WSReply` from `comm.rs`: messages sessions send to the comm server. -/
inductive WSReply where
  | Connect (client : WebsocketClient)
  | Init (id : String) (client : WebsocketClient)
  | Accounts (id : String) (client : WebsocketClient) (accounts : List EthAddress)
  | MessageSignature (id : String) (client : WebsocketClient) (signature : String)
  | TransactionSignature (id : String) (client : WebsocketClient) (signature : String)
  | Error (id : String) (client : WebsocketClient) (error : String)
  | Disconnect (client : WebsocketClient)
deriving DecidableEq

/-- Rust `AsyncRequestContent` from `comm.rs`. -/
inductive AsyncRequestContent where
  | Accounts
  | SignTextMessage (address : EthAddress) (message : String)
  | SignBinaryMessage (address : EthAddress) (message : H256)
  | SignTransaction (transaction : TypedTransaction)
  | SignTypedData (address : EthAddress) (typed_data : TypedData)
deriving DecidableEq

/-- Rust `AsyncRequest` from `comm.rs`: a caller request entering the broker. -/
structure AsyncRequest where
  id : String
  content : AsyncRequestContent
deriving DecidableEq

/-- Rust `AsyncResponseContent` from `comm.rs`. -/
inductive AsyncResponseContent where
  | Accounts (accounts : List EthAddress)
  | MessageSignature (signature : String)
  | TransactionSignature (signature : String)
  | Error (error : String)
deriving DecidableEq

/-- Rust `AsyncResponse` from `comm.rs`: broker reply forwarded to the caller. -/
structure AsyncResponse where
  id : String
  content : AsyncResponseContent
deriving DecidableEq

/-- Rust `InitStatus` from `comm.rs`. -/
inductive InitStatus where
  | None
  | Pending (id : String)
  | Done
deriving DecidableEq

/-- The mutable state of `CommServer` (`comm.rs`).  The `server` mpsc sender
is modelled as the `toServer` effect rather than a field. -/
structure CommServer where
  chain_id : Nat
  chains : Option ChainMap
  client : Option WebsocketClient
  init_status : InitStatus
  is_handling_request : Bool
  pending_messages : List AsyncRequest
deriving DecidableEq

/-- Rust `CommServer::new`. -/
def CommServer.new (chain_id : Nat) (chains : Option ChainMap) : CommServer :=
  { chain_id := chain_id
    chains := chains
    client := Option.none
    init_status := InitStatus.None
    is_handling_request := false
    pending_messages := [] }

/-- An observable side effect of a broker handler: a `do_send` to a session
(`toClient`) or a `send` on the server mpsc channel (`toServer`).  Log lines
are not modelled. -/
inductive Eff where
  | toClient (c : WebsocketClient) (req : WSRequest)
  | toServer (res : AsyncResponse)
deriving DecidableEq

/-- Rust `CommServer::is_same_client`. -/
def CommServer.is_same_client (s : CommServer) (addr : WebsocketClient) : Bool :=
  match s.client with
  | Option.some client => client = addr
  | Option.none => false

/-- Rust `CommServer::is_client_init`. -/
def CommServer.is_client_init (s : CommServer) : Bool :=
  s.init_status = InitStatus.Done

/-- Rust `CommServer::has_ready_client`. -/
def CommServer.has_ready_client (s : CommServer) : Bool :=
  s.client.isSome && s.is_client_init

/-- Rust `CommServer::kick_client`: a `Close` message sent to the given session. -/
def kick_client (client : WebsocketClient) (reason : String) : Eff :=
  Eff.toClient client (WSRequest.Close reason)

/-- Rust `CommServer::cleanup_client`. -/
def CommServer.cleanup_client (s : CommServer) : CommServer :=
  { s with client := Option.none
           init_status := InitStatus.None
           is_handling_request := false }

/-- Rust `CommServer::kick_current_client`. -/
def CommServer.kick_current_client (s : CommServer) (reason : String) :
    CommServer × List Eff :=
  match s.client with
  | Option.some addr => (s.cleanup_client, [kick_client addr reason])
  | Option.none => (s, [])

/-- The wire request built in `CommServer::send_pending_message` from a queued
`AsyncRequest` (the `match content` block). -/
def wsRequestOfContent (id : String) (content : AsyncRequestContent) : WSRequest :=
  match content with
  | AsyncRequestContent.Accounts => WSRequest.Accounts id
  | AsyncRequestContent.SignTextMessage address message =>
      WSRequest.SignTextMessage id address message
  | AsyncRequestContent.SignBinaryMessage address message =>
      WSRequest.SignBinaryMessage id address message
  | AsyncRequestContent.SignTransaction transaction =>
      WSRequest.SignTransaction id transaction
  | AsyncRequestContent.SignTypedData address typed_data =>
      WSRequest.SignTypedData id address typed_data

/-- Rust `CommServer::send_pending_message`. -/
def CommServer.send_pending_message (s : CommServer) : CommServer × List Eff :=
  if s.is_handling_request || !s.has_ready_client then (s, [])
  else
    match s.client, s.pending_messages with
    | Option.some c, msg :: _ =>
        ({ s with is_handling_request := true },
         [Eff.toClient c (wsRequestOfContent msg.id msg.content)])
    | _, _ => (s, [])

/-- Rust `CommServer::handle_init`. -/
def CommServer.handle_init (s : CommServer) (id : String) : CommServer × List Eff :=
  match s.init_status with
  | InitStatus.Pending original_id =>
      if original_id ≠ id then s.kick_current_client "invalid id on init"
      else CommServer.send_pending_message { s with init_status := InitStatus.Done }
  | _ => s.kick_current_client "init already done"

/-- The reason string built by `format!("failed init: \x7b:?\x7d", content)`,
modelled with a simple rendering of the content tag. -/
def failedInitReason (content : AsyncResponseContent) : String :=
  "failed init: " ++
    match content with
    | AsyncResponseContent.Accounts _ => "Accounts"
    | AsyncResponseContent.MessageSignature _ => "MessageSignature"
    | AsyncResponseContent.TransactionSignature _ => "TransactionSignature"
    | AsyncResponseContent.Error _ => "Error"

/-- Rust `CommServer::handle_response`.  `send_server_reply` always succeeds (a
failed mpsc send only logs), so it is the `toServer` effect. -/
def CommServer.handle_response (s : CommServer) (id : String)
    (content : AsyncResponseContent) : CommServer × List Eff :=
  if !s.is_client_init then
    match s.init_status with
    | InitStatus.Pending original_id =>
        if original_id ≠ id then s.kick_current_client "invalid id on init"
        else
          let errEffs : List Eff :=
            match content, s.pending_messages with
            | AsyncResponseContent.Error e, msg :: _ =>
                [Eff.toServer ⟨msg.id, AsyncResponseContent.Error e⟩]
            | _, _ => []
          let ke := s.kick_current_client (failedInitReason content)
          (ke.1, errEffs ++ ke.2)
    | _ => s.kick_current_client "wrong init status"
  else
    let fwd : CommServer × List Eff :=
      match s.pending_messages with
      | msg :: rest =>
          if msg.id ≠ id then (s, [])
          else ({ s with pending_messages := rest },
                [Eff.toServer ⟨id, content⟩])
      | [] => (s, [])
    let pump := CommServer.send_pending_message
      { fwd.1 with is_handling_request := false }
    (pump.1, fwd.2 ++ pump.2)

/-- Rust `CommServer::queue_pending_message`. -/
def CommServer.queue_pending_message (s : CommServer) (msg : AsyncRequest) :
    CommServer × List Eff :=
  CommServer.send_pending_message
    { s with pending_messages := s.pending_messages ++ [msg] }

/-- Rust `Handler<WSReply>::handle` from `comm.rs`.  `genId` is the oracle value for
the `gen_id()` call in the `Connect` arm (a fresh random 16-char string in the
source). -/
def CommServer.handleWSReply (s : CommServer) (genId : String) (msg : WSReply) :
    CommServer × List Eff :=
  match msg with
  | WSReply.Connect client =>
      ({ s with client := Option.some client
                init_status := InitStatus.Pending genId },
       [Eff.toClient client (WSRequest.Init genId s.chain_id s.chains)])
  | WSReply.Disconnect client =>
      if !s.is_same_client client then (s, [])
      else (s.cleanup_client, [])
  | WSReply.Init id client =>
      if !s.is_same_client client then (s, [kick_client client "invalid client"])
      else s.handle_init id
  | WSReply.Accounts id client accounts =>
      if !s.is_same_client client then (s, [kick_client client "invalid client"])
      else s.handle_response id (AsyncResponseContent.Accounts accounts)
  | WSReply.MessageSignature id client signature =>
      if !s.is_same_client client then (s, [kick_client client "invalid client"])
      else s.handle_response id (AsyncResponseContent.MessageSignature signature)
  | WSReply.TransactionSignature id client signature =>
      if !s.is_same_client client then (s, [kick_client client "invalid client"])
      else s.handle_response id (AsyncResponseContent.TransactionSignature signature)
  | WSReply.Error id client error =>
      if !s.is_same_client client then (s, [kick_client client "invalid client"])
      else s.handle_response id (AsyncResponseContent.Error error)

/-- A message drawn from the broker's two inboxes: a session message (with the
oracle value for `gen_id`, used only by `Connect`) or a caller request
(`Handler<AsyncRequest>::handle`, which calls `queue_pending_message`). -/
inductive BrokerMsg where
  | fromClient (genId : String) (reply : WSReply)
  | fromServer (req : AsyncRequest)
deriving DecidableEq

/-- One handler invocation of the broker actor. -/
def CommServer.step (s : CommServer) (m : BrokerMsg) : CommServer × List Eff :=
  match m with
  | BrokerMsg.fromClient genId reply => s.handleWSReply genId reply
  | BrokerMsg.fromServer req => s.queue_pending_message req

/-- Run the broker actor over a whole message sequence, accumulating the
emitted effects in order. -/
def CommServer.run (s : CommServer) : List BrokerMsg → CommServer × List Eff
  | [] => (s, [])
  | m :: ms =>
      let st := s.step m
      let rest := CommServer.run st.1 ms
      (rest.1, st.2 ++ rest.2)

/-- The id carried by a wire request that counts as a browser-visible request:
`Init` (the handshake) and `Close` (a kick, not serialized to the browser) are
excluded. -/
def nonInitRequestId : WSRequest → Option String
  | WSRequest.Init _ _ _ => Option.none
  | WSRequest.Close _ => Option.none
  | WSRequest.Accounts id => Option.some id
  | WSRequest.SignBinaryMessage id _ _ => Option.some id
  | WSRequest.SignTextMessage id _ _ => Option.some id
  | WSRequest.SignTransaction id _ => Option.some id
  | WSRequest.SignTypedData id _ _ => Option.some id

/-- The ids of the non-init requests sent to sessions, in emission order. -/
def sentNonInitIds (effs : List Eff) : List String :=
  effs.filterMap fun e =>
    match e with
    | Eff.toClient _ req => nonInitRequestId req
    | Eff.toServer _ => Option.none

/-- The caller requests contained in a broker message sequence, in order. -/
def asyncRequests (msgs : List BrokerMsg) : List AsyncRequest :=
  msgs.filterMap fun m =>
    match m with
    | BrokerMsg.fromServer req => Option.some req
    | BrokerMsg.fromClient _ _ => Option.none

/-- Collapse consecutive duplicates in a list of ids. -/
def collapse : List String → List String
  | [] => []
  | [a] => [a]
  | a :: b :: t => if a = b then collapse (b :: t) else a :: collapse (b :: t)

/-! Section: the caller façade (`http/mod.rs`). -/

/-- Rust `ServerError` from `http/mod.rs`. -/
inductive ServerError where
  | Init (msg : String)
  | Comm (msg : String)
  | Client (msg : String)
deriving DecidableEq

/-- The reply-polling loop of `Server::wait_for_reply`, over the sequence of
replies the receiver yields before the deadline.  A reply whose id differs
from the generated id is discarded and polling continues; exhausting the
sequence is the timeout. -/
def wait_for_reply {U : Type} (id : String)
    (pred : AsyncResponseContent → Option U) :
    List AsyncResponse → Except ServerError U
  | [] => Except.error (ServerError.Comm "timeout")
  | res :: rest =>
      if res.id = id then
        match pred res.content with
        | Option.some u => Except.ok u
        | Option.none =>
            match res.content with
            | AsyncResponseContent.Error error =>
                Except.error (ServerError.Client error)
            | _ => Except.error (ServerError.Comm "unexpected response")
      else wait_for_reply id pred rest

/-- The content matcher passed by `Server::get_user_addresses`. -/
def accountsPred : AsyncResponseContent → Option (List EthAddress)
  | AsyncResponseContent.Accounts accounts => Option.some accounts
  | _ => Option.none

/-- The content matcher passed by `Server::sign_text_message` and
`Server::sign_binary_message`. -/
def messageSignaturePred : AsyncResponseContent → Option String
  | AsyncResponseContent.MessageSignature signature => Option.some signature
  | _ => Option.none

/-! Section: the HTTP routes (`http/routes.rs`). -/

/-- An actix `HttpResponse`, reduced to what the routes build: a status, a
content type and a body. -/
inductive HttpResponse where
  | Ok (contentType : String) (body : String)
  | NotFound (body : String)
deriving DecidableEq

/-- Rust `handle_embedded_file` from `routes.rs`.  The embedded `Asset` bundle is a
map from path to (mime, data); MIME detection is part of the lookup result. -/
def handle_embedded_file (assets : String → Option (String × String))
    (path : String) : HttpResponse :=
  match assets path with
  | Option.some (mime, data) => HttpResponse.Ok mime data
  | Option.none => HttpResponse.NotFound "404 Not Found"

/-- The `index` route from `routes.rs`: `GET /?nonce=X` compares the query
nonce against the server nonce and serves the embedded index page. -/
def indexRoute (assets : String → Option (String × String))
    (query_nonce server_nonce : String) : HttpResponse :=
  if query_nonce ≠ server_nonce then HttpResponse.NotFound "404 Not Found"
  else handle_embedded_file assets "index.html"

/-! Section: the WebSocket session (`http/session.rs`). -/

/-- Rust `HEARTBEAT_INTERVAL` from `session.rs`, in seconds. -/
def HEARTBEAT_INTERVAL : Nat := 10

/-- Rust `CLIENT_TIMEOUT` from `session.rs`, in seconds. -/
def CLIENT_TIMEOUT : Nat := 30

/-- What one heartbeat-interval callback does (`WSFlow::heartbeat`). -/
inductive TickEffect where
  | stopSession
  | ping (payload : String)
deriving DecidableEq

/-- The closure run by `ctx.run_interval(HEARTBEAT_INTERVAL, ...)` in
`WSFlow::heartbeat`: timestamps are seconds on a monotonic clock, so
`Instant::now().duration_since(act.last_heartbeat)` is `now - last_heartbeat`
(truncated subtraction; the clock never goes backwards). -/
def heartbeat_tick (now last_heartbeat : Nat) : TickEffect :=
  if CLIENT_TIMEOUT < now - last_heartbeat then TickEffect.stopSession
  else TickEffect.ping ""

/-- The session state relevant to the heartbeat (`WSFlow.last_heartbeat`). -/
structure WSFlowState where
  last_heartbeat : Nat
deriving DecidableEq

/-- The WebSocket frames distinguished by `StreamHandler::handle`. -/
inductive WsFrame where
  | Ping (payload : String)
  | Pong (payload : String)
  | Text (text : String)
  | Close (reason : Option String)
  | ProtocolError (e : String)
  | Other
deriving DecidableEq

/-- Observable actions of the session's stream handler. -/
inductive SessionAction where
  | pong (payload : String)
  | forwardText (text : String)
  | closeWith (description : String)
  | stopSession
deriving DecidableEq

/-- Rust `StreamHandler::handle` from `session.rs`, at time `now`.  The `Text` arm
delegates JSON parsing and forwarding to `forward_to_server`; here the whole
arm is abstracted by the `forward` parameter returning the emitted actions
(`forwardText` on success, `closeWith` + `stopSession` on a parse error), which
in the source never touch `last_heartbeat`. -/
def stream_handle (forward : String → List SessionAction)
    (s : WSFlowState) (now : Nat) (msg : WsFrame) :
    WSFlowState × List SessionAction :=
  match msg with
  | WsFrame.Ping payload =>
      ({ last_heartbeat := now }, [SessionAction.pong payload])
  | WsFrame.Pong _ => ({ last_heartbeat := now }, [])
  | WsFrame.Text text => (s, forward text)
  | WsFrame.Close _ => (s, [SessionAction.stopSession])
  | WsFrame.ProtocolError _ => (s, [])
  | WsFrame.Other =>
      (s, [SessionAction.closeWith "unsupported message received",
           SessionAction.stopSession])

/-! Section: the `BrowserSigner` (`lib.rs`).

Each façade operation is modelled as the pair of (a) the request content it
submits to the broker and (b) the value it returns given the broker's reply.
External library functions are parameters: `fromUtf8` is
`String::from_utf8` (some decoded string exactly when the bytes are valid
UTF-8), `hashMessage` is `ethers::utils::hash_message` (the EIP-191 hash), and
`parseSig` is `Signature::from_str` (none on a parse failure). -/

/-- Rust `BrowserSignerError` from `lib.rs`, reduced to the variants the verified
operations can produce. -/
inductive BrowserSignerError where
  | ServerErr (e : ServerError)
  | NoAddressFound
  | SignatureError
  | Unsupported (msg : String)
deriving DecidableEq

/-- Rust `Signer::sign_message` from `lib.rs`: decode the bytes as UTF-8 and send a
`SignTextMessage` with the string, or fall back to `SignBinaryMessage` with
the EIP-191 hash of the bytes; parse the returned signature string. -/
def sign_message (fromUtf8 : List Nat → Option String)
    (hashMessage : List Nat → H256) (parseSig : String → Option EthSig)
    (self_address : EthAddress) (message : List Nat)
    (serverResult : Except ServerError String) :
    AsyncRequestContent × Except BrowserSignerError EthSig :=
  let message_hash := hashMessage message
  let req :=
    match fromUtf8 message with
    | Option.some s => AsyncRequestContent.SignTextMessage self_address s
    | Option.none => AsyncRequestContent.SignBinaryMessage self_address message_hash
  (req,
   match serverResult with
   | Except.error e => Except.error (BrowserSignerError.ServerErr e)
   | Except.ok sig =>
       match parseSig sig with
       | Option.some s => Except.ok s
       | Option.none => Except.error BrowserSignerError.SignatureError)

/-- Rust `Signer::sign_typed_data` from `lib.rs`: the trait method ignores the
payload, contacts no server, and fails with `Unsupported`.  The returned list
is the sequence of requests submitted to the broker (none). -/
def signer_sign_typed_data {T : Type} (_payload : T) :
    List AsyncRequestContent × Except BrowserSignerError EthSig :=
  ([],
   Except.error (BrowserSignerError.Unsupported
     "sign_typed_data is not supported, use sign_typed_data_raw instead"))

/-- Rust `BrowserSigner::sign_typed_data_raw` from `lib.rs`: submits a
`SignTypedData` request through `Server::sign_typed_data` and parses the
returned signature string. -/
def sign_typed_data_raw (parseSig : String → Option EthSig)
    (self_address : EthAddress) (data : TypedData)
    (serverResult : Except ServerError String) :
    List AsyncRequestContent × Except BrowserSignerError EthSig :=
  ([AsyncRequestContent.SignTypedData self_address data],
   match serverResult with
   | Except.error e => Except.error (BrowserSignerError.ServerErr e)
   | Except.ok sig =>
       match parseSig sig with
       | Option.some s => Except.ok s
       | Option.none => Except.error BrowserSignerError.SignatureError)

/-! Section: invariants of the broker state machine and demonstration runs. -/

/-- Queue/emission bookkeeping: the requests enqueued so far split into a
popped part `done` and the current queue; the consecutive-duplicate collapse
of the non-init ids sent so far is the ids of `done`, optionally followed by
the id of the queue head (which is then the request currently on the wire);
when a request is marked in flight, the head id has been sent last. -/
def QueueInv (enq : List AsyncRequest) (s : CommServer) (sent : List String) : Prop :=
  ∃ done,
    enq = done ++ s.pending_messages ∧
    (collapse sent = done.map AsyncRequest.id ∨
      ∃ p ps, s.pending_messages = p :: ps ∧
        collapse sent = done.map AsyncRequest.id ++ [p.id]) ∧
    (s.is_handling_request = true →
      ∃ p ps, s.pending_messages = p :: ps ∧
        collapse sent = done.map AsyncRequest.id ++ [p.id])

/-- Control facts: an in-flight request implies an attached client and a
started handshake, and a finished handshake implies an attached client. -/
def CtlInv (s : CommServer) : Prop :=
  (s.is_handling_request = true →
    s.client.isSome = true ∧ s.init_status ≠ InitStatus.None) ∧
  (s.init_status = InitStatus.Done → s.client.isSome = true)

/-- The invariant before a pump run: everything except the pump-completion
fact. -/
def PreInv (enq : List AsyncRequest) (s : CommServer) (sent : List String) : Prop :=
  QueueInv enq s sent ∧ CtlInv s

/-- The full per-handler invariant: additionally, once the handshake is done a
non-empty queue has its head on the wire (the pump never leaves ready work
unsent). -/
def BrokerInv (enq : List AsyncRequest) (s : CommServer) (sent : List String) : Prop :=
  PreInv enq s sent ∧
  (s.init_status = InitStatus.Done → s.pending_messages ≠ [] →
    s.is_handling_request = true)

/-- The weak invariant used for the in-flight claim: no queue/emission
bookkeeping, so it needs no freshness assumption on ids. -/
def SmallInv (s : CommServer) : Prop :=
  (s.is_handling_request = true →
    s.pending_messages ≠ [] ∧ s.client.isSome = true ∧
      s.init_status ≠ InitStatus.None) ∧
  (s.init_status = InitStatus.Done → s.client.isSome = true)

/-- A run reaching a state with a connected, initialized client and one
request in flight: connect, complete the handshake, enqueue one request. -/
def inFlightTrace : List BrokerMsg :=
  [BrokerMsg.fromClient "g1" (WSReply.Connect 1),
   BrokerMsg.fromClient "" (WSReply.Init "g1" 1),
   BrokerMsg.fromServer ⟨"A", AsyncRequestContent.Accounts⟩]

/-- Extending `inFlightTrace` with a response from the attached client whose
id matches no queued request. -/
def dupTrace : List BrokerMsg :=
  inFlightTrace ++ [BrokerMsg.fromClient "" (WSReply.Accounts "B" 1 [])]

/-- Extending `inFlightTrace` with a second browser connection. -/
def secondConnectTrace : List BrokerMsg :=
  inFlightTrace ++ [BrokerMsg.fromClient "g2" (WSReply.Connect 2)]

/-- A broker state mid-handshake (`init = Pending "g1"`) with one queued
request: reached by a connect followed by one caller request. -/
def pendingDemoState : CommServer :=
  ((CommServer.new 5 Option.none).run
    [BrokerMsg.fromClient "g1" (WSReply.Connect 1),
     BrokerMsg.fromServer ⟨"A", AsyncRequestContent.Accounts⟩]).1

/-- The broker state reached by `inFlightTrace`: handshake done, request "A"
in flight. -/
def doneDemoState : CommServer :=
  ((CommServer.new 5 Option.none).run inFlightTrace).1

/-- A one-page asset bundle used to instantiate the route theorems. -/
def demoAssets : String → Option (String × String) :=
  fun path =>
    if path = "index.html" then Option.some ("text/html", "demo-index-page")
    else Option.none

/-- The ids of replies forwarded to the caller channel, in order. -/
def forwardedIds (effs : List Eff) : List String :=
  effs.filterMap fun e =>
    match e with
    | Eff.toServer res => Option.some res.id
    | Eff.toClient _ _ => Option.none

/-! Section: theorems. -/

/-- C1 (counterexample): with client 1 attached, handling `Connect` from
client 2 does displace client 1 — the stored client is afterwards client 2,
not the previously attached one, so first-to-connect does not win. -/
theorem connect_displaces_client_cex :
    (((CommServer.new 5 Option.none).run
        [BrokerMsg.fromClient "g1" (WSReply.Connect 1)]).1.client
      = Option.some 1)
    ∧ ¬ ((((CommServer.new 5 Option.none).run
          [BrokerMsg.fromClient "g1" (WSReply.Connect 1)]).1.step
            (BrokerMsg.fromClient "g2" (WSReply.Connect 2))).1.client
        = Option.some 1) := by
  decide

/-- C1 (amended): handling `Connect` stores the *new* client and a fresh
pending handshake, and the only effect is the `Init` request to the new
client — the previously attached client is neither kept nor sent anything
(it is only kicked later, when one of its messages fails the client check). -/
theorem connect_stores_new_client (s : CommServer) (c : WebsocketClient)
    (g : String) :
    (s.handleWSReply g (WSReply.Connect c)).1.client = Option.some c
    ∧ (s.handleWSReply g (WSReply.Connect c)).1.init_status = InitStatus.Pending g
    ∧ (s.handleWSReply g (WSReply.Connect c)).1.pending_messages = s.pending_messages
    ∧ (s.handleWSReply g (WSReply.Connect c)).2
        = [Eff.toClient c (WSRequest.Init g s.chain_id s.chains)] :=
  ⟨rfl, rfl, rfl, rfl⟩

/-- C3 (counterexample): after connect, handshake, one enqueued request and a
second `Connect`, the handler returns with `is_handling_request = true` while
`init_status` is `Pending`, not `Done` — the claimed invariant fails. -/
theorem in_flight_init_pending_cex :
    (((CommServer.new 5 Option.none).run secondConnectTrace).1.is_handling_request
      = true)
    ∧ ¬ (((CommServer.new 5 Option.none).run secondConnectTrace).1.init_status
      = InitStatus.Done) := by
  decide

/-- C9: the `Signer` trait method `sign_typed_data` fails with `Unsupported`
for every payload and submits no request to the broker, while
`sign_typed_data_raw` is the method that submits a `SignTypedData` request. -/
theorem sign_typed_data_unsupported (T : Type) (payload : T)
    (parseSig : String → Option EthSig) (addr : EthAddress) (data : TypedData)
    (r : Except ServerError String) :
    signer_sign_typed_data payload
      = ([], Except.error (BrowserSignerError.Unsupported
          "sign_typed_data is not supported, use sign_typed_data_raw instead"))
    ∧ (sign_typed_data_raw parseSig addr data r).1
      = [AsyncRequestContent.SignTypedData addr data] :=
  ⟨rfl, rfl⟩

/-- C10: `sign_message` sends `SignTextMessage` with the decoded string when
the bytes are valid UTF-8, otherwise `SignBinaryMessage` with the EIP-191
hash of the bytes; in both cases a returned signature string is parsed into a
signature (a parse failure becoming `SignatureError`). -/
theorem sign_message_utf8_dispatch (fromUtf8 : List Nat → Option String)
    (hashMessage : List Nat → H256) (parseSig : String → Option EthSig)
    (addr : EthAddress) (message : List Nat)
    (r : Except ServerError String) :
    (∀ st, fromUtf8 message = Option.some st →
      (sign_message fromUtf8 hashMessage parseSig addr message r).1
        = AsyncRequestContent.SignTextMessage addr st)
    ∧ (fromUtf8 message = Option.none →
      (sign_message fromUtf8 hashMessage parseSig addr message r).1
        = AsyncRequestContent.SignBinaryMessage addr (hashMessage message))
    ∧ (∀ sig, r = Except.ok sig →
      (sign_message fromUtf8 hashMessage parseSig addr message r).2
        = (match parseSig sig with
           | Option.some sg => Except.ok sg
           | Option.none => Except.error BrowserSignerError.SignatureError)) := by
  refine ⟨?_, ?_, ?_⟩
  · intro st h
    simp [sign_message, h]
  · intro h
    simp [sign_message, h]
  · intro sig h
    simp [sign_message, h]

/-- C10 (witness): concrete instantiations covering the UTF-8 branch, the
binary branch and the signature parse. -/
theorem sign_message_utf8_dispatch_witness :
    (sign_message (fun _ => Option.some "hi") (fun _ => 7) (fun _ => Option.some 9)
        3 [104, 105] (Except.ok "0xsig")).1
      = AsyncRequestContent.SignTextMessage 3 "hi"
    ∧ (sign_message (fun _ => Option.none) (fun _ => 7) (fun _ => Option.some 9)
        3 [255] (Except.ok "0xsig")).1
      = AsyncRequestContent.SignBinaryMessage 3 7
    ∧ (sign_message (fun _ => Option.none) (fun _ => 7) (fun _ => Option.some 9)
        3 [255] (Except.ok "0xsig")).2
      = Except.ok 9 := by
  refine ⟨?_, ?_, ?_⟩
  · exact (sign_message_utf8_dispatch (fun _ => Option.some "hi") (fun _ => 7)
      (fun _ => Option.some 9) 3 [104, 105] (Except.ok "0xsig")).1 "hi" rfl
  · exact (sign_message_utf8_dispatch (fun _ => Option.none) (fun _ => 7)
      (fun _ => Option.some 9) 3 [255] (Except.ok "0xsig")).2.1 rfl
  · have h := (sign_message_utf8_dispatch (fun _ => Option.none) (fun _ => 7)
      (fun _ => Option.some 9) 3 [255] (Except.ok "0xsig")).2.2 "0xsig" rfl
    simpa using h

/-- C7: with the index page present in the embedded bundle, `GET /?nonce=X`
returns the embedded index page exactly when `X` equals the server nonce, and
a 404 response otherwise. -/
theorem index_nonce_gate (assets : String → Option (String × String))
    (mime data : String)
    (h : assets "index.html" = Option.some (mime, data)) (X n : String) :
    (indexRoute assets X n = HttpResponse.Ok mime data ↔ X = n)
    ∧ (X ≠ n → indexRoute assets X n = HttpResponse.NotFound "404 Not Found") := by
  by_cases hx : X = n
  · subst hx
    simp [indexRoute, handle_embedded_file, h]
  · constructor
    · constructor
      · intro habs
        simp [indexRoute, hx] at habs
      · intro h2
        exact absurd h2 hx
    · intro _
      simp [indexRoute, hx]

/-- C7 (witness): the demo bundle at the matching and at a wrong nonce. -/
theorem index_nonce_gate_witness :
    (indexRoute demoAssets "N0" "N0"
        = HttpResponse.Ok "text/html" "demo-index-page" ↔ ("N0" : String) = "N0")
    ∧ (indexRoute demoAssets "bad" "N0"
        = HttpResponse.Ok "text/html" "demo-index-page" ↔ ("bad" : String) = "N0") := by
  constructor
  · exact (index_nonce_gate demoAssets "text/html" "demo-index-page" rfl "N0" "N0").1
  · exact (index_nonce_gate demoAssets "text/html" "demo-index-page" rfl "bad" "N0").1

/-- C8: the heartbeat interval is 10 s and the timeout 30 s; a tick closes the
session exactly when more than 30 s passed since the last heartbeat and sends
an empty ping otherwise; an incoming pong and an incoming ping both reset
`last_heartbeat` to the current time (the ping additionally being answered
with a pong). -/
theorem heartbeat_behaviour (now last : Nat)
    (fwd : String → List SessionAction) (s : WSFlowState) (p q : String) :
    HEARTBEAT_INTERVAL = 10
    ∧ CLIENT_TIMEOUT = 30
    ∧ (CLIENT_TIMEOUT < now - last →
        heartbeat_tick now last = TickEffect.stopSession)
    ∧ (¬ CLIENT_TIMEOUT < now - last →
        heartbeat_tick now last = TickEffect.ping "")
    ∧ (stream_handle fwd s now (WsFrame.Pong q)).1.last_heartbeat = now
    ∧ (stream_handle fwd s now (WsFrame.Ping p)).1.last_heartbeat = now
    ∧ (stream_handle fwd s now (WsFrame.Ping p)).2 = [SessionAction.pong p] := by
  refine ⟨rfl, rfl, ?_, ?_, rfl, rfl, rfl⟩
  · intro h
    simp [heartbeat_tick, h]
  · intro h
    simp [heartbeat_tick, h]

/-- C8 (witness): concrete times on both sides of the timeout. -/
theorem heartbeat_behaviour_witness :
    heartbeat_tick 100 0 = TickEffect.stopSession
    ∧ heartbeat_tick 100 95 = TickEffect.ping ""
    ∧ (stream_handle (fun _ => []) ⟨0⟩ 7 (WsFrame.Pong "")).1.last_heartbeat = 7
    ∧ (stream_handle (fun _ => []) ⟨0⟩ 7 (WsFrame.Ping "x")).1.last_heartbeat = 7 := by
  have h := heartbeat_behaviour 100 0 (fun _ => []) ⟨0⟩ "x" ""
  have h2 := heartbeat_behaviour 100 95 (fun _ => []) ⟨0⟩ "x" ""
  have h3 := heartbeat_behaviour 7 0 (fun _ => []) ⟨0⟩ "x" ""
  exact ⟨h.2.2.1 (by decide), h2.2.2.2.1 (by decide), h3.2.2.2.2.1, h3.2.2.2.2.2.1⟩

/-- Replies whose id differs from the generated id are skipped by the polling
loop. -/
theorem wait_for_reply_skip {U : Type} (id : String)
    (pred : AsyncResponseContent → Option U) (pre l : List AsyncResponse)
    (hpre : ∀ r ∈ pre, r.id ≠ id) :
    wait_for_reply id pred (pre ++ l) = wait_for_reply id pred l := by
  induction pre with
  | nil => rfl
  | cons r rest ih =>
      have hr : r.id ≠ id := hpre r (List.mem_cons_self r rest)
      have hrest : ∀ x ∈ rest, x.id ≠ id := fun x hx =>
        hpre x (List.mem_cons_of_mem r hx)
      simp [wait_for_reply, hr, ih hrest]

/-- C6: while polling, every reply with a non-matching id is discarded and
polling continues; the first reply with the matching id determines the
outcome — the expected content variant (the matcher returning a value) yields
success, an `Error` content yields a `Client` error with its text, and any
other content variant yields a `Comm` error. -/
theorem wait_for_reply_filters_and_maps {U : Type} (id : String)
    (pred : AsyncResponseContent → Option U) (pre rest : List AsyncResponse)
    (res : AsyncResponse) (hpre : ∀ r ∈ pre, r.id ≠ id) (hid : res.id = id) :
    (∀ u, pred res.content = Option.some u →
      wait_for_reply id pred (pre ++ res :: rest) = Except.ok u)
    ∧ (∀ e, pred res.content = Option.none →
        res.content = AsyncResponseContent.Error e →
        wait_for_reply id pred (pre ++ res :: rest)
          = Except.error (ServerError.Client e))
    ∧ (pred res.content = Option.none →
        (∀ e, res.content ≠ AsyncResponseContent.Error e) →
        wait_for_reply id pred (pre ++ res :: rest)
          = Except.error (ServerError.Comm "unexpected response")) := by
  have hskip := wait_for_reply_skip id pred pre (res :: rest) hpre
  refine ⟨?_, ?_, ?_⟩
  · intro u hu
    rw [hskip]
    simp [wait_for_reply, hid, hu]
  · intro e hnone herr
    rw [hskip]
    rw [herr] at hnone
    simp [wait_for_reply, hid, hnone, herr]
  · intro hnone hne
    rw [hskip]
    cases hc : res.content with
    | Error e => exact absurd hc (hne e)
    | Accounts a =>
        rw [hc] at hnone
        simp [wait_for_reply, hid, hnone, hc]
    | MessageSignature sg =>
        rw [hc] at hnone
        simp [wait_for_reply, hid, hnone, hc]
    | TransactionSignature sg =>
        rw [hc] at hnone
        simp [wait_for_reply, hid, hnone, hc]

/-- C6 (witness): a stale reply with a different id is skipped; then a
matching `Accounts` reply succeeds, a matching `Error` reply maps to a
`Client` error, and a matching reply of the wrong variant maps to a `Comm`
error. -/
theorem wait_for_reply_filters_and_maps_witness :
    wait_for_reply "new" accountsPred
        [⟨"old", AsyncResponseContent.Error "stale"⟩,
         ⟨"new", AsyncResponseContent.Accounts [1, 2]⟩]
      = Except.ok [1, 2]
    ∧ wait_for_reply "new" accountsPred
        [⟨"old", AsyncResponseContent.Accounts [3]⟩,
         ⟨"new", AsyncResponseContent.Error "user rejected"⟩]
      = Except.error (ServerError.Client "user rejected")
    ∧ wait_for_reply "new" accountsPred
        [⟨"new", AsyncResponseContent.MessageSignature "0xdead"⟩]
      = Except.error (ServerError.Comm "unexpected response") := by
  refine ⟨?_, ?_, ?_⟩
  · exact (wait_for_reply_filters_and_maps "new" accountsPred
      [⟨"old", AsyncResponseContent.Error "stale"⟩] []
      ⟨"new", AsyncResponseContent.Accounts [1, 2]⟩
      (by decide) rfl).1 [1, 2] rfl
  · exact (wait_for_reply_filters_and_maps "new" accountsPred
      [⟨"old", AsyncResponseContent.Accounts [3]⟩] []
      ⟨"new", AsyncResponseContent.Error "user rejected"⟩
      (by decide) rfl).2.1 "user rejected" rfl rfl
  · exact (wait_for_reply_filters_and_maps "new" accountsPred [] []
      ⟨"new", AsyncResponseContent.MessageSignature "0xdead"⟩
      (by decide) rfl).2.2 rfl
      (fun e h => AsyncResponseContent.noConfusion h)

/-- C4: while the handshake is `Pending expected`, a response from the
attached client with the expected id and `Error` content forwards that error
to the caller channel under the id of the head-of-queue request (when the
queue is non-empty) and then kicks the client; a response with any other id
kicks the client without forwarding anything. -/
theorem pending_error_forward_then_kick (s : CommServer)
    (c : WebsocketClient) (expected id e g : String)
    (hinit : s.init_status = InitStatus.Pending expected)
    (hc : s.client = Option.some c) :
    (id = expected →
      (s.handleWSReply g (WSReply.Error id c e)).2
        = (match s.pending_messages with
           | msg :: _ => [Eff.toServer ⟨msg.id, AsyncResponseContent.Error e⟩]
           | [] => [])
          ++ [kick_client c (failedInitReason (AsyncResponseContent.Error e))]
      ∧ (s.handleWSReply g (WSReply.Error id c e)).1 = s.cleanup_client)
    ∧ (id ≠ expected →
      (s.handleWSReply g (WSReply.Error id c e)).2
        = [kick_client c "invalid id on init"]
      ∧ (s.handleWSReply g (WSReply.Error id c e)).1 = s.cleanup_client) := by
  have hsame : s.is_same_client c = true := by
    simp [CommServer.is_same_client, hc]
  have hnotinit : s.is_client_init = false := by
    simp [CommServer.is_client_init, hinit]
  constructor
  · intro hid
    subst hid
    cases hp : s.pending_messages with
    | nil =>
        constructor
        · simp [CommServer.handleWSReply, hsame, CommServer.handle_response,
            hnotinit, hinit, hp, CommServer.kick_current_client, hc]
        · simp [CommServer.handleWSReply, hsame, CommServer.handle_response,
            hnotinit, hinit, hp, CommServer.kick_current_client, hc]
    | cons m rest =>
        constructor
        · simp [CommServer.handleWSReply, hsame, CommServer.handle_response,
            hnotinit, hinit, hp, CommServer.kick_current_client, hc,
            kick_client]
        · simp [CommServer.handleWSReply, hsame, CommServer.handle_response,
            hnotinit, hinit, hp, CommServer.kick_current_client, hc]
  · intro hid
    have hid2 : ¬ expected = id := fun hh => hid hh.symm
    constructor
    · simp [CommServer.handleWSReply, hsame, CommServer.handle_response,
        hnotinit, hinit, hid2, CommServer.kick_current_client, hc, kick_client]
    · simp [CommServer.handleWSReply, hsame, CommServer.handle_response,
        hnotinit, hinit, hid2, CommServer.kick_current_client, hc]

/-- C4 (witness): the broker mid-handshake with request "A" queued, receiving
a matching-id `Error` and then a wrong-id `Error`. -/
theorem pending_error_forward_then_kick_witness :
    ((pendingDemoState.handleWSReply "" (WSReply.Error "g1" 1 "boom")).2
      = [Eff.toServer ⟨"A", AsyncResponseContent.Error "boom"⟩,
         kick_client 1 (failedInitReason (AsyncResponseContent.Error "boom"))])
    ∧ ((pendingDemoState.handleWSReply "" (WSReply.Error "zz" 1 "boom")).2
      = [kick_client 1 "invalid id on init"]) := by
  constructor
  · have h := (pending_error_forward_then_kick pendingDemoState 1 "g1" "g1"
      "boom" "" (by decide) (by decide)).1 rfl
    rw [h.1]
    decide
  · exact ((pending_error_forward_then_kick pendingDemoState 1 "g1" "zz"
      "boom" "" (by decide) (by decide)).2 (by decide)).1

/-- C5: a `Disconnect` from the currently attached client clears the client,
resets the handshake and the in-flight flag, emits nothing, and leaves the
pending queue exactly as it was; after a subsequent connect and successful
handshake the pump resumes by sending the front of that preserved queue. -/
theorem disconnect_preserves_queue (s : CommServer)
    (c c2 : WebsocketClient) (g g2 : String)
    (hc : s.client = Option.some c) :
    (s.handleWSReply g (WSReply.Disconnect c)
      = ({ s with client := Option.none, init_status := InitStatus.None,
                  is_handling_request := false }, []))
    ∧ (s.handleWSReply g (WSReply.Disconnect c)).1.pending_messages
        = s.pending_messages
    ∧ (∀ r rest, s.pending_messages = r :: rest →
        (CommServer.run (s.handleWSReply g (WSReply.Disconnect c)).1
          [BrokerMsg.fromClient g2 (WSReply.Connect c2),
           BrokerMsg.fromClient "" (WSReply.Init g2 c2)]).2
        = [Eff.toClient c2 (WSRequest.Init g2 s.chain_id s.chains),
           Eff.toClient c2 (wsRequestOfContent r.id r.content)]) := by
  have hsame : s.is_same_client c = true := by
    simp [CommServer.is_same_client, hc]
  have hdis : s.handleWSReply g (WSReply.Disconnect c)
      = ({ s with client := Option.none, init_status := InitStatus.None,
                  is_handling_request := false }, []) := by
    simp [CommServer.handleWSReply, hsame, CommServer.cleanup_client]
  refine ⟨hdis, by rw [hdis], ?_⟩
  intro r rest hp
  rw [hdis]
  simp only [CommServer.run, CommServer.step, CommServer.handleWSReply,
    CommServer.is_same_client, CommServer.handle_init,
    CommServer.send_pending_message, CommServer.is_client_init,
    CommServer.has_ready_client, hp]
  simp

/-- C5 (witness): the in-flight demo state loses its client, keeps queue
["A"], and after reconnection the pump re-sends request "A". -/
theorem disconnect_preserves_queue_witness :
    (doneDemoState.handleWSReply "x" (WSReply.Disconnect 1)).1.pending_messages
      = doneDemoState.pending_messages
    ∧ (CommServer.run (doneDemoState.handleWSReply "x" (WSReply.Disconnect 1)).1
        [BrokerMsg.fromClient "g2" (WSReply.Connect 2),
         BrokerMsg.fromClient "" (WSReply.Init "g2" 2)]).2
      = [Eff.toClient 2 (WSRequest.Init "g2" 5 Option.none),
         Eff.toClient 2 (WSRequest.Accounts "A")] := by
  have h := disconnect_preserves_queue doneDemoState 1 2 "x" "g2" (by decide)
  refine ⟨h.2.1, ?_⟩
  have h3 := h.2.2 ⟨"A", AsyncRequestContent.Accounts⟩ [] (by decide)
  rw [h3]
  decide

/-- Characterization of the pump: it either leaves the state unchanged with
no effects, or (no request in flight, attached initialized client, non-empty
queue) marks in-flight and sends the queue head to the client. -/
theorem send_pending_cases (s : CommServer) :
    s.send_pending_message = (s, [])
    ∨ (∃ c p ps, s.is_handling_request = false ∧ s.client = Option.some c ∧
        s.init_status = InitStatus.Done ∧ s.pending_messages = p :: ps ∧
        s.send_pending_message
          = ({ s with is_handling_request := true },
             [Eff.toClient c (wsRequestOfContent p.id p.content)])) := by
  cases hh : s.is_handling_request with
  | true => left; simp [CommServer.send_pending_message, hh]
  | false =>
      cases hr : s.has_ready_client with
      | false => left; simp [CommServer.send_pending_message, hh, hr]
      | true =>
          have hcl : ∃ c, s.client = Option.some c := by
            rcases hcc : s.client with _ | c
            · rw [CommServer.has_ready_client, hcc] at hr
              simp at hr
            · exact ⟨c, rfl⟩
          have hinit : s.init_status = InitStatus.Done := by
            rw [CommServer.has_ready_client, CommServer.is_client_init] at hr
            rcases Bool.and_eq_true_iff.mp hr with ⟨_, h2⟩
            exact of_decide_eq_true h2
          rcases hcl with ⟨c, hc⟩
          cases hp : s.pending_messages with
          | nil => left; simp [CommServer.send_pending_message, hh, hr, hc, hp]
          | cons p ps =>
              right
              exact ⟨c, p, ps, rfl, hc, hinit, rfl, by
                simp [CommServer.send_pending_message, hh, hr, hc, hp]⟩

/-- A client-equality check that succeeds pins down the stored client. -/
theorem is_same_client_some (s : CommServer) (c : WebsocketClient)
    (h : s.is_same_client c = true) : s.client = Option.some c := by
  rcases hc : s.client with _ | d
  · rw [CommServer.is_same_client, hc] at h
    simp at h
  · rw [CommServer.is_same_client, hc] at h
    have : d = c := by exact_mod_cast of_decide_eq_true h
    rw [this]

/-- Cleanup always restores the weak invariant. -/
theorem small_inv_cleanup (s : CommServer) : SmallInv s.cleanup_client := by
  constructor
  · intro h
    simp [CommServer.cleanup_client] at h
  · intro h
    simp [CommServer.cleanup_client] at h

/-- Kicking the current client preserves the weak invariant. -/
theorem small_inv_kick (s : CommServer) (r : String) (h : SmallInv s) :
    SmallInv (s.kick_current_client r).1 := by
  rcases hc : s.client with _ | c
  · simpa [CommServer.kick_current_client, hc] using h
  · simpa [CommServer.kick_current_client, hc] using small_inv_cleanup s

/-- The pump preserves the weak invariant. -/
theorem small_inv_pump (s : CommServer) (h : SmallInv s) :
    SmallInv s.send_pending_message.1 := by
  rcases send_pending_cases s with heq | ⟨c, p, ps, _, hc, hinit, hp, heq⟩
  · rw [heq]
    exact h
  · rw [heq]
    constructor
    · intro _
      exact ⟨by simp [hp], by simp [hc], by simp [hinit]⟩
    · intro _
      simp [hc]

/-- Handling a response (with the client check already passed) preserves the
weak invariant. -/
theorem small_inv_handle_response (s : CommServer) (id : String)
    (content : AsyncResponseContent) (h : SmallInv s)
    (hc : ∃ c, s.client = Option.some c) :
    SmallInv (s.handle_response id content).1 := by
  rcases hc with ⟨c, hc⟩
  cases hini : s.is_client_init with
  | false =>
      cases hst : s.init_status with
      | Pending orig =>
          by_cases hid : orig = id
          · subst hid
            have hstate : (s.handle_response orig content).1
                = (s.kick_current_client (failedInitReason content)).1 := by
              cases content <;> cases hp : s.pending_messages <;>
                simp [CommServer.handle_response, hini, hst, hp]
            rw [hstate]
            exact small_inv_kick _ _ h
          · have hstate : (s.handle_response id content).1
                = (s.kick_current_client "invalid id on init").1 := by
              simp [CommServer.handle_response, hini, hst, hid]
            rw [hstate]
            exact small_inv_kick _ _ h
      | None =>
          have hstate : (s.handle_response id content).1
              = (s.kick_current_client "wrong init status").1 := by
            simp [CommServer.handle_response, hini, hst]
          rw [hstate]
          exact small_inv_kick _ _ h
      | Done =>
          rw [CommServer.is_client_init, hst] at hini
          simp at hini
  | true =>
      have hst : s.init_status = InitStatus.Done := by
        rw [CommServer.is_client_init] at hini
        exact of_decide_eq_true hini
      cases hp : s.pending_messages with
      | nil =>
          have hstate : (s.handle_response id content).1
              = (CommServer.send_pending_message
                  { s with is_handling_request := false }).1 := by
            simp [CommServer.handle_response, hini, hp]
          rw [hstate]
          apply small_inv_pump
          exact ⟨by intro hh; simp at hh, by intro _; simp [hc]⟩
      | cons m rest =>
          by_cases hid : m.id = id
          · have hstate : (s.handle_response id content).1
                = (CommServer.send_pending_message
                    { s with pending_messages := rest,
                             is_handling_request := false }).1 := by
              simp [CommServer.handle_response, hini, hp, hid]
            rw [hstate]
            apply small_inv_pump
            exact ⟨by intro hh; simp at hh, by intro _; simp [hc]⟩
          · have hstate : (s.handle_response id content).1
                = (CommServer.send_pending_message
                    { s with is_handling_request := false }).1 := by
              simp [CommServer.handle_response, hini, hp, hid]
            rw [hstate]
            apply small_inv_pump
            exact ⟨by intro hh; simp at hh, by intro _; simp [hc]⟩

/-- One broker handler invocation preserves the weak invariant. -/
theorem small_inv_step (s : CommServer) (m : BrokerMsg) (h : SmallInv s) :
    SmallInv (s.step m).1 := by
  cases m with
  | fromServer r =>
      rw [CommServer.step, CommServer.queue_pending_message]
      apply small_inv_pump
      constructor
      · intro hf
        refine ⟨by simp, (h.1 hf).2.1, (h.1 hf).2.2⟩
      · intro hd
        exact h.2 hd
  | fromClient g reply =>
      cases reply with
      | Connect c =>
          rw [CommServer.step, CommServer.handleWSReply]
          constructor
          · intro hf
            exact ⟨(h.1 hf).1, by simp, by simp⟩
          · intro hd
            simp at hd
      | Disconnect c =>
          rw [CommServer.step, CommServer.handleWSReply]
          by_cases hsame : s.is_same_client c = true
          · simp only [hsame, Bool.not_true, if_neg (by simp : ¬ false = true)]
            exact small_inv_cleanup s
          · simp only [Bool.not_eq_true] at hsame
            simp only [hsame]
            simpa using h
      | Init id c =>
          rw [CommServer.step, CommServer.handleWSReply]
          by_cases hsame : s.is_same_client c = true
          · simp only [hsame, Bool.not_true, if_neg (by simp : ¬ false = true)]
            have hc := is_same_client_some s c hsame
            rw [CommServer.handle_init]
            cases hst : s.init_status with
            | Pending orig =>
                by_cases hid : orig = id
                · simp only [if_neg (by simp [hid] : ¬ orig ≠ id)]
                  apply small_inv_pump
                  constructor
                  · intro hf
                    exact ⟨(h.1 hf).1, by simp [hc], by simp⟩
                  · intro _
                    simp [hc]
                · simp only [if_pos (by simp [hid] : orig ≠ id)]
                  exact small_inv_kick _ _ h
            | None => exact small_inv_kick _ _ h
            | Done => exact small_inv_kick _ _ h
          · simp only [Bool.not_eq_true] at hsame
            simp only [hsame]
            simpa using h
      | Accounts id c accounts =>
          rw [CommServer.step, CommServer.handleWSReply]
          by_cases hsame : s.is_same_client c = true
          · simp only [hsame, Bool.not_true, if_neg (by simp : ¬ false = true)]
            exact small_inv_handle_response s id _ h ⟨c, is_same_client_some s c hsame⟩
          · simp only [Bool.not_eq_true] at hsame
            simp only [hsame]
            simpa using h
      | MessageSignature id c signature =>
          rw [CommServer.step, CommServer.handleWSReply]
          by_cases hsame : s.is_same_client c = true
          · simp only [hsame, Bool.not_true, if_neg (by simp : ¬ false = true)]
            exact small_inv_handle_response s id _ h ⟨c, is_same_client_some s c hsame⟩
          · simp only [Bool.not_eq_true] at hsame
            simp only [hsame]
            simpa using h
      | TransactionSignature id c signature =>
          rw [CommServer.step, CommServer.handleWSReply]
          by_cases hsame : s.is_same_client c = true
          · simp only [hsame, Bool.not_true, if_neg (by simp : ¬ false = true)]
            exact small_inv_handle_response s id _ h ⟨c, is_same_client_some s c hsame⟩
          · simp only [Bool.not_eq_true] at hsame
            simp only [hsame]
            simpa using h
      | Error id c error =>
          rw [CommServer.step, CommServer.handleWSReply]
          by_cases hsame : s.is_same_client c = true
          · simp only [hsame, Bool.not_true, if_neg (by simp : ¬ false = true)]
            exact small_inv_handle_response s id _ h ⟨c, is_same_client_some s c hsame⟩
          · simp only [Bool.not_eq_true] at hsame
            simp only [hsame]
            simpa using h

/-- Every run from a state satisfying the weak invariant stays in it. -/
theorem small_inv_run (s : CommServer) (msgs : List BrokerMsg)
    (h : SmallInv s) : SmallInv (s.run msgs).1 := by
  induction msgs generalizing s with
  | nil => exact h
  | cons m ms ih =>
      rw [CommServer.run]
      exact ih _ (small_inv_step s m h)

/-- C3 (amended): for every message sequence handled by a broker started from
`CommServer::new`, after the last handler returns `is_handling_request = true`
implies a non-empty pending queue, an attached client, and a started (pending
or done, but not cleared) handshake — the original claim's `init = Done` part
is false (see the counterexample) and weakens to `init ≠ None`. -/
theorem in_flight_implies_queue_and_client (chain_id : Nat)
    (chains : Option ChainMap) (msgs : List BrokerMsg)
    (h : ((CommServer.new chain_id chains).run msgs).1.is_handling_request
      = true) :
    ((CommServer.new chain_id chains).run msgs).1.pending_messages ≠ []
    ∧ ((CommServer.new chain_id chains).run msgs).1.client.isSome = true
    ∧ ((CommServer.new chain_id chains).run msgs).1.init_status
        ≠ InitStatus.None := by
  have hinit : SmallInv (CommServer.new chain_id chains) := by
    constructor
    · intro hh
      simp [CommServer.new] at hh
    · intro hh
      simp [CommServer.new] at hh
  exact (small_inv_run (CommServer.new chain_id chains) msgs hinit).1 h

/-- C3 (witness): the in-flight demo run. -/
theorem in_flight_implies_queue_and_client_witness :
    ((CommServer.new 5 Option.none).run inFlightTrace).1.pending_messages ≠ []
    ∧ ((CommServer.new 5 Option.none).run inFlightTrace).1.client.isSome = true
    ∧ ((CommServer.new 5 Option.none).run inFlightTrace).1.init_status
        ≠ InitStatus.None :=
  in_flight_implies_queue_and_client 5 Option.none inFlightTrace (by decide)

/-- Collapsing never empties a non-empty list. -/
theorem collapse_ne_nil : ∀ (t : List String) (a : String), collapse (a :: t) ≠ []
  | [], a => by simp [collapse]
  | b :: t2, a => by
      by_cases hab : a = b
      · simpa [collapse, hab] using collapse_ne_nil t2 b
      · simp [collapse, hab]

/-- Collapsing preserves the last element. -/
theorem collapse_getLast : ∀ (l : List String),
    (collapse l).getLast? = l.getLast?
  | [] => rfl
  | [a] => rfl
  | a :: b :: t2 => by
      simp only [collapse]
      by_cases hab : a = b
      · rw [if_pos hab, collapse_getLast (b :: t2), List.getLast?_cons_cons]
      · rw [if_neg hab]
        rcases hm : collapse (b :: t2) with _ | ⟨c, m2⟩
        · exact absurd hm (collapse_ne_nil t2 b)
        · have ih := collapse_getLast (b :: t2)
          rw [hm] at ih
          rw [List.getLast?_cons_cons, ih, List.getLast?_cons_cons]

/-- Appending one element collapses away exactly when it repeats the last. -/
theorem collapse_append : ∀ (l : List String) (x : String),
    collapse (l ++ [x])
      = if l.getLast? = Option.some x then collapse l else collapse l ++ [x]
  | [], x => by simp [collapse]
  | [a], x => by
      by_cases hax : a = x
      · subst hax
        simp [collapse]
      · simp [collapse, hax]
  | a :: b :: t2, x => by
      have ih := collapse_append (b :: t2) x
      by_cases hab : a = b <;>
        by_cases hlx : (b :: t2).getLast? = Option.some x <;>
          simp [collapse, List.getLast?_cons_cons, hab, hlx,
            List.cons_append] <;>
          (rw [List.cons_append] at ih; rw [ih]; simp [hlx])

/-- A list contains its last element. -/
theorem mem_of_getLast_eq : ∀ (l : List String) (a : String),
    l.getLast? = Option.some a → a ∈ l
  | [], a => by simp
  | [b], a => by
      intro h
      simp only [List.getLast?_singleton, Option.some.injEq] at h
      simp [h]
  | b :: c :: t2, a => by
      intro h
      rw [List.getLast?_cons_cons] at h
      exact List.mem_cons_of_mem b (mem_of_getLast_eq (c :: t2) a h)

/-- Effects on the server channel carry no browser-visible request id. -/
theorem sentNonInitIds_toServer (r : AsyncResponse) (l : List Eff) :
    sentNonInitIds (Eff.toServer r :: l) = sentNonInitIds l := rfl

/-- Kicks carry no browser-visible request id. -/
theorem sentNonInitIds_close (c : WebsocketClient) (reason : String)
    (l : List Eff) :
    sentNonInitIds (Eff.toClient c (WSRequest.Close reason) :: l)
      = sentNonInitIds l := rfl

/-- The handshake request carries no (non-init) browser-visible request id. -/
theorem sentNonInitIds_init (c : WebsocketClient) (g : String) (cid : Nat)
    (ch : Option ChainMap) (l : List Eff) :
    sentNonInitIds (Eff.toClient c (WSRequest.Init g cid ch) :: l)
      = sentNonInitIds l := rfl

/-- A pumped queue entry contributes exactly its id. -/
theorem sentNonInitIds_emit (c : WebsocketClient) (id : String)
    (content : AsyncRequestContent) (l : List Eff) :
    sentNonInitIds (Eff.toClient c (wsRequestOfContent id content) :: l)
      = id :: sentNonInitIds l := by
  cases content <;> rfl

/-- Concatenation distributes over the sent-id extraction. -/
theorem sentNonInitIds_append (a b : List Eff) :
    sentNonInitIds (a ++ b) = sentNonInitIds a ++ sentNonInitIds b :=
  List.filterMap_append a b _

/-- In a duplicate-free enqueue order, the head of the remaining queue never
occurs among the already-popped ids. -/
theorem head_not_in_popped (enq done : List AsyncRequest) (p : AsyncRequest)
    (ps : List AsyncRequest) (hnd : (enq.map AsyncRequest.id).Nodup)
    (hdec : enq = done ++ p :: ps) :
    p.id ∉ done.map AsyncRequest.id := by
  subst hdec
  rw [List.map_append] at hnd
  rcases List.nodup_append.mp hnd with ⟨_, _, hdisj⟩
  intro hmem
  exact hdisj hmem (by simp)

/-- Fine-grained characterization of the pump, separating the three no-op
reasons. -/
theorem send_pending_cases2 (s : CommServer) :
    (s.is_handling_request = true ∧ s.send_pending_message = (s, []))
    ∨ (s.has_ready_client = false ∧ s.send_pending_message = (s, []))
    ∨ (s.pending_messages = [] ∧ s.send_pending_message = (s, []))
    ∨ (∃ c p ps, s.is_handling_request = false ∧ s.client = Option.some c ∧
        s.init_status = InitStatus.Done ∧ s.pending_messages = p :: ps ∧
        s.send_pending_message
          = ({ s with is_handling_request := true },
             [Eff.toClient c (wsRequestOfContent p.id p.content)])) := by
  cases hh : s.is_handling_request with
  | true => exact Or.inl ⟨rfl, by simp [CommServer.send_pending_message, hh]⟩
  | false =>
      cases hr : s.has_ready_client with
      | false =>
          exact Or.inr (Or.inl ⟨rfl, by
            simp [CommServer.send_pending_message, hh, hr]⟩)
      | true =>
          have hcl : ∃ c, s.client = Option.some c := by
            rcases hcc : s.client with _ | c
            · rw [CommServer.has_ready_client, hcc] at hr
              simp at hr
            · exact ⟨c, rfl⟩
          have hinit : s.init_status = InitStatus.Done := by
            rw [CommServer.has_ready_client, CommServer.is_client_init] at hr
            rcases Bool.and_eq_true_iff.mp hr with ⟨_, h2⟩
            exact of_decide_eq_true h2
          rcases hcl with ⟨c, hc⟩
          cases hp : s.pending_messages with
          | nil =>
              exact Or.inr (Or.inr (Or.inl ⟨rfl, by
                simp [CommServer.send_pending_message, hh, hr, hc, hp]⟩))
          | cons p ps =>
              exact Or.inr (Or.inr (Or.inr ⟨c, p, ps, rfl, hc, hinit, rfl, by
                simp [CommServer.send_pending_message, hh, hr, hc, hp]⟩))

/-- Running the pump turns the pre-invariant into the full invariant. -/
theorem pump_inv (enq : List AsyncRequest) (s : CommServer)
    (sent : List String) (hnd : (enq.map AsyncRequest.id).Nodup)
    (h : PreInv enq s sent) :
    BrokerInv enq s.send_pending_message.1
      (sent ++ sentNonInitIds s.send_pending_message.2) := by
  obtain ⟨⟨done, hdec, hcases, hstrong⟩, hctl⟩ := h
  have hnil : sentNonInitIds [] = [] := rfl
  rcases send_pending_cases2 s with ⟨hf, heq⟩ | ⟨hr, heq⟩ | ⟨hp, heq⟩ |
    ⟨c, p, ps, hf, hc, hinit, hp, heq⟩
  · rw [heq, hnil, List.append_nil]
    exact ⟨⟨⟨done, hdec, hcases, hstrong⟩, hctl⟩, fun _ _ => hf⟩
  · rw [heq, hnil, List.append_nil]
    refine ⟨⟨⟨done, hdec, hcases, hstrong⟩, hctl⟩, fun hD _ => ?_⟩
    exfalso
    have hcl := hctl.2 hD
    rw [CommServer.has_ready_client, CommServer.is_client_init, hcl, hD] at hr
    simp at hr
  · rw [heq, hnil, List.append_nil]
    exact ⟨⟨⟨done, hdec, hcases, hstrong⟩, hctl⟩, fun _ hne => absurd hp hne⟩
  · rw [heq]
    rw [show sentNonInitIds [Eff.toClient c (wsRequestOfContent p.id p.content)]
        = [p.id] from by cases hcnt : p.content <;> simp [sentNonInitIds,
          wsRequestOfContent, nonInitRequestId]]
    have hkey : collapse (sent ++ [p.id])
        = done.map AsyncRequest.id ++ [p.id] := by
      rcases hcases with hA | ⟨p2, ps2, hp2, hB⟩
      · rw [collapse_append]
        have hlast : ¬ sent.getLast? = Option.some p.id := by
          intro hsl
          rw [← collapse_getLast, hA] at hsl
          have hmem : p.id ∈ done.map AsyncRequest.id :=
            mem_of_getLast_eq _ _ hsl
          exact head_not_in_popped enq done p ps hnd (by rw [hdec, hp]) hmem
        rw [if_neg hlast, hA]
      · rw [hp] at hp2
        injection hp2 with h1 h2
        subst h1
        rw [collapse_append]
        have hlast : sent.getLast? = Option.some p.id := by
          rw [← collapse_getLast, hB]
          exact List.getLast?_concat _
        rw [if_pos hlast, hB]
    refine ⟨⟨⟨done, by simpa using hdec,
      Or.inr ⟨p, ps, by simpa using hp, by simpa using hkey⟩,
      fun _ => ⟨p, ps, by simpa using hp, by simpa using hkey⟩⟩, ?_⟩,
      fun _ _ => rfl⟩
    constructor
    · intro _
      exact ⟨by simp [hc], by simp [hinit]⟩
    · intro _
      simp [hc]

/-- Cleanup keeps the queue bookkeeping and trivializes the control facts. -/
theorem broker_inv_cleanup (enq : List AsyncRequest) (s : CommServer)
    (sent : List String) (hq : QueueInv enq s sent) :
    BrokerInv enq s.cleanup_client sent := by
  obtain ⟨done, hdec, hcases, _⟩ := hq
  refine ⟨⟨⟨done, ?_, ?_, ?_⟩, ?_, ?_⟩, ?_⟩
  · simpa [CommServer.cleanup_client] using hdec
  · rcases hcases with hA | ⟨p, ps, hp, hB⟩
    · exact Or.inl hA
    · exact Or.inr ⟨p, ps, by simpa [CommServer.cleanup_client] using hp, hB⟩
  · intro hf
    simp [CommServer.cleanup_client] at hf
  · intro hf
    simp [CommServer.cleanup_client] at hf
  · intro hD
    simp [CommServer.cleanup_client] at hD
  · intro hD
    simp [CommServer.cleanup_client] at hD

/-- Handling a response from the attached client preserves the invariant. -/
theorem handle_response_inv (enq : List AsyncRequest) (s : CommServer)
    (sent : List String) (id : String) (content : AsyncResponseContent)
    (c : WebsocketClient) (hc : s.client = Option.some c)
    (h : BrokerInv enq s sent) (hnd : (enq.map AsyncRequest.id).Nodup) :
    BrokerInv enq (s.handle_response id content).1
      (sent ++ sentNonInitIds (s.handle_response id content).2) := by
  obtain ⟨⟨⟨done, hdec, hcases, hstrong⟩, hctl⟩, hpump⟩ := h
  have hnil : sentNonInitIds [] = [] := rfl
  cases hini : s.is_client_init with
  | false =>
      cases hst : s.init_status with
      | Pending orig =>
          by_cases hid : orig = id
          · subst hid
            have hstep : sentNonInitIds (s.handle_response orig content).2 = []
                ∧ (s.handle_response orig content).1 = s.cleanup_client := by
              cases content <;> cases hp : s.pending_messages <;>
                simp [CommServer.handle_response, hini, hst, hp,
                  CommServer.kick_current_client, hc, sentNonInitIds,
                  nonInitRequestId, kick_client]
            rw [hstep.1, hstep.2, List.append_nil]
            exact broker_inv_cleanup enq s sent ⟨done, hdec, hcases, hstrong⟩
          · have hstep : s.handle_response id content
                = (s.cleanup_client, [kick_client c "invalid id on init"]) := by
              simp [CommServer.handle_response, hini, hst, hid,
                CommServer.kick_current_client, hc]
            rw [hstep, kick_client, sentNonInitIds_close, hnil, List.append_nil]
            exact broker_inv_cleanup enq s sent ⟨done, hdec, hcases, hstrong⟩
      | None =>
          have hstep : s.handle_response id content
              = (s.cleanup_client, [kick_client c "wrong init status"]) := by
            simp [CommServer.handle_response, hini, hst,
              CommServer.kick_current_client, hc]
          rw [hstep, kick_client, sentNonInitIds_close, hnil, List.append_nil]
          exact broker_inv_cleanup enq s sent ⟨done, hdec, hcases, hstrong⟩
      | Done =>
          rw [CommServer.is_client_init, hst] at hini
          simp at hini
  | true =>
      have hst : s.init_status = InitStatus.Done := by
        rw [CommServer.is_client_init] at hini
        exact of_decide_eq_true hini
      cases hp : s.pending_messages with
      | nil =>
          have hstep : s.handle_response id content
              = CommServer.send_pending_message
                  { s with is_handling_request := false } := by
            simp [CommServer.handle_response, hini, hp]
          rw [hstep]
          refine pump_inv _ _ _ hnd ⟨⟨done, ?_, ?_, ?_⟩, ?_, ?_⟩
          · exact hdec
          · rcases hcases with hA | ⟨p, ps, hp2, hB⟩
            · exact Or.inl hA
            · exact Or.inr ⟨p, ps, hp2, hB⟩
          · intro hf
            simp at hf
          · intro hf
            simp at hf
          · intro hD
            exact hctl.2 hD
      | cons m0 rest =>
          by_cases hid : m0.id = id
          · have hstep : s.handle_response id content
                = ((CommServer.send_pending_message
                    { s with pending_messages := rest,
                             is_handling_request := false }).1,
                   Eff.toServer ⟨id, content⟩ ::
                    (CommServer.send_pending_message
                      { s with pending_messages := rest,
                               is_handling_request := false }).2) := by
              simp [CommServer.handle_response, hini, hp, hid]
            rw [hstep, sentNonInitIds_toServer]
            have hf : s.is_handling_request = true := hpump hst (by simp [hp])
            obtain ⟨p, ps, hp2, hB⟩ := hstrong hf
            rw [hp] at hp2
            injection hp2 with h1 h2
            subst h1
            subst h2
            refine pump_inv _ _ _ hnd ⟨⟨done ++ [m0], ?_, ?_, ?_⟩, ?_, ?_⟩
            · rw [hdec, hp]
              simp
            · exact Or.inl (by simpa using hB)
            · intro hf2
              simp at hf2
            · intro hf2
              simp at hf2
            · intro hD
              exact hctl.2 hD
          · have hstep : s.handle_response id content
                = CommServer.send_pending_message
                    { s with is_handling_request := false } := by
              simp [CommServer.handle_response, hini, hp, hid]
            rw [hstep]
            refine pump_inv _ _ _ hnd ⟨⟨done, ?_, ?_, ?_⟩, ?_, ?_⟩
            · exact hdec
            · rcases hcases with hA | ⟨p, ps, hp2, hB⟩
              · exact Or.inl hA
              · exact Or.inr ⟨p, ps, hp2, hB⟩
            · intro hf2
              simp at hf2
            · intro hf2
              simp at hf2
            · intro hD
              exact hctl.2 hD

/-- One broker handler invocation preserves the invariant, extending the
enqueue history by the caller requests the message carries. -/
theorem step_inv (enq : List AsyncRequest) (s : CommServer)
    (sent : List String) (m : BrokerMsg) (h : BrokerInv enq s sent)
    (hnd : ((enq ++ asyncRequests [m]).map AsyncRequest.id).Nodup) :
    BrokerInv (enq ++ asyncRequests [m]) (s.step m).1
      (sent ++ sentNonInitIds (s.step m).2) := by
  obtain ⟨⟨⟨done, hdec, hcases, hstrong⟩, hctl⟩, hpump⟩ := h
  have hnil : sentNonInitIds [] = [] := rfl
  cases m with
  | fromServer r =>
      rw [show asyncRequests [BrokerMsg.fromServer r] = [r] from rfl] at hnd ⊢
      rw [show s.step (BrokerMsg.fromServer r)
          = CommServer.send_pending_message
              { s with pending_messages := s.pending_messages ++ [r] }
        from rfl]
      refine pump_inv _ _ _ hnd ⟨⟨done, ?_, ?_, ?_⟩, ?_, ?_⟩
      · rw [hdec]
        simp
      · rcases hcases with hA | ⟨p, ps, hp, hB⟩
        · exact Or.inl hA
        · exact Or.inr ⟨p, ps ++ [r], by simp [hp], hB⟩
      · intro hf
        obtain ⟨p, ps, hp, hB⟩ := hstrong hf
        exact ⟨p, ps ++ [r], by simp [hp], hB⟩
      · intro hf
        exact hctl.1 hf
      · intro hD
        exact hctl.2 hD
  | fromClient g reply =>
      rw [show asyncRequests [BrokerMsg.fromClient g reply] = [] from rfl]
        at hnd ⊢
      rw [List.append_nil] at hnd ⊢
      cases reply with
      | Connect c =>
          rw [show s.step (BrokerMsg.fromClient g (WSReply.Connect c))
              = ({ s with client := Option.some c,
                          init_status := InitStatus.Pending g },
                 [Eff.toClient c (WSRequest.Init g s.chain_id s.chains)])
            from rfl]
          rw [sentNonInitIds_init, hnil, List.append_nil]
          refine ⟨⟨⟨done, hdec, ?_, ?_⟩, ?_, ?_⟩, ?_⟩
          · rcases hcases with hA | ⟨p, ps, hp, hB⟩
            · exact Or.inl hA
            · exact Or.inr ⟨p, ps, hp, hB⟩
          · intro hf
            exact hstrong hf
          · intro hf
            exact ⟨by simp, by simp⟩
          · intro hD
            simp at hD
          · intro hD
            simp at hD
      | Disconnect c =>
          by_cases hsame : s.is_same_client c = true
          · rw [show s.step (BrokerMsg.fromClient g (WSReply.Disconnect c))
                = (s.cleanup_client, []) from by
              simp [CommServer.step, CommServer.handleWSReply, hsame]]
            rw [hnil, List.append_nil]
            exact broker_inv_cleanup enq s sent ⟨done, hdec, hcases, hstrong⟩
          · rw [show s.step (BrokerMsg.fromClient g (WSReply.Disconnect c))
                = (s, []) from by
              simp only [Bool.not_eq_true] at hsame
              simp [CommServer.step, CommServer.handleWSReply, hsame]]
            rw [hnil, List.append_nil]
            exact ⟨⟨⟨done, hdec, hcases, hstrong⟩, hctl⟩, hpump⟩
      | Init id c =>
          by_cases hsame : s.is_same_client c = true
          · have hc := is_same_client_some s c hsame
            rw [show s.step (BrokerMsg.fromClient g (WSReply.Init id c))
                = s.handle_init id from by
              simp [CommServer.step, CommServer.handleWSReply, hsame]]
            cases hst : s.init_status with
            | Pending orig =>
                by_cases hid : orig = id
                · rw [show s.handle_init id
                      = CommServer.send_pending_message
                          { s with init_status := InitStatus.Done } from by
                    simp [CommServer.handle_init, hst, hid]]
                  refine pump_inv _ _ _ hnd ⟨⟨done, ?_, ?_, ?_⟩, ?_, ?_⟩
                  · exact hdec
                  · rcases hcases with hA | ⟨p, ps, hp, hB⟩
                    · exact Or.inl hA
                    · exact Or.inr ⟨p, ps, hp, hB⟩
                  · intro hf
                    exact hstrong hf
                  · intro hf
                    exact ⟨(hctl.1 hf).1, by simp⟩
                  · intro _
                    simp [hc]
                · rw [show s.handle_init id
                      = (s.cleanup_client, [kick_client c "invalid id on init"])
                    from by
                    simp [CommServer.handle_init, hst, hid,
                      CommServer.kick_current_client, hc]]
                  rw [kick_client, sentNonInitIds_close, hnil, List.append_nil]
                  exact broker_inv_cleanup enq s sent ⟨done, hdec, hcases, hstrong⟩
            | None =>
                rw [show s.handle_init id
                    = (s.cleanup_client, [kick_client c "init already done"])
                  from by
                  simp [CommServer.handle_init, hst,
                    CommServer.kick_current_client, hc]]
                rw [kick_client, sentNonInitIds_close, hnil, List.append_nil]
                exact broker_inv_cleanup enq s sent ⟨done, hdec, hcases, hstrong⟩
            | Done =>
                rw [show s.handle_init id
                    = (s.cleanup_client, [kick_client c "init already done"])
                  from by
                  simp [CommServer.handle_init, hst,
                    CommServer.kick_current_client, hc]]
                rw [kick_client, sentNonInitIds_close, hnil, List.append_nil]
                exact broker_inv_cleanup enq s sent ⟨done, hdec, hcases, hstrong⟩
          · rw [show s.step (BrokerMsg.fromClient g (WSReply.Init id c))
                = (s, [kick_client c "invalid client"]) from by
              simp only [Bool.not_eq_true] at hsame
              simp [CommServer.step, CommServer.handleWSReply, hsame,
                kick_client]]
            rw [kick_client, sentNonInitIds_close, hnil, List.append_nil]
            exact ⟨⟨⟨done, hdec, hcases, hstrong⟩, hctl⟩, hpump⟩
      | Accounts id c accounts =>
          by_cases hsame : s.is_same_client c = true
          · have hc := is_same_client_some s c hsame
            rw [show s.step (BrokerMsg.fromClient g (WSReply.Accounts id c accounts))
                = s.handle_response id (AsyncResponseContent.Accounts accounts)
              from by
              simp [CommServer.step, CommServer.handleWSReply, hsame]]
            exact handle_response_inv enq s sent id _ c hc
              ⟨⟨⟨done, hdec, hcases, hstrong⟩, hctl⟩, hpump⟩ hnd
          · rw [show s.step (BrokerMsg.fromClient g (WSReply.Accounts id c accounts))
                = (s, [kick_client c "invalid client"]) from by
              simp only [Bool.not_eq_true] at hsame
              simp [CommServer.step, CommServer.handleWSReply, hsame,
                kick_client]]
            rw [kick_client, sentNonInitIds_close, hnil, List.append_nil]
            exact ⟨⟨⟨done, hdec, hcases, hstrong⟩, hctl⟩, hpump⟩
      | MessageSignature id c signature =>
          by_cases hsame : s.is_same_client c = true
          · have hc := is_same_client_some s c hsame
            rw [show s.step (BrokerMsg.fromClient g
                  (WSReply.MessageSignature id c signature))
                = s.handle_response id
                    (AsyncResponseContent.MessageSignature signature) from by
              simp [CommServer.step, CommServer.handleWSReply, hsame]]
            exact handle_response_inv enq s sent id _ c hc
              ⟨⟨⟨done, hdec, hcases, hstrong⟩, hctl⟩, hpump⟩ hnd
          · rw [show s.step (BrokerMsg.fromClient g
                  (WSReply.MessageSignature id c signature))
                = (s, [kick_client c "invalid client"]) from by
              simp only [Bool.not_eq_true] at hsame
              simp [CommServer.step, CommServer.handleWSReply, hsame,
                kick_client]]
            rw [kick_client, sentNonInitIds_close, hnil, List.append_nil]
            exact ⟨⟨⟨done, hdec, hcases, hstrong⟩, hctl⟩, hpump⟩
      | TransactionSignature id c signature =>
          by_cases hsame : s.is_same_client c = true
          · have hc := is_same_client_some s c hsame
            rw [show s.step (BrokerMsg.fromClient g
                  (WSReply.TransactionSignature id c signature))
                = s.handle_response id
                    (AsyncResponseContent.TransactionSignature signature)
              from by
              simp [CommServer.step, CommServer.handleWSReply, hsame]]
            exact handle_response_inv enq s sent id _ c hc
              ⟨⟨⟨done, hdec, hcases, hstrong⟩, hctl⟩, hpump⟩ hnd
          · rw [show s.step (BrokerMsg.fromClient g
                  (WSReply.TransactionSignature id c signature))
                = (s, [kick_client c "invalid client"]) from by
              simp only [Bool.not_eq_true] at hsame
              simp [CommServer.step, CommServer.handleWSReply, hsame,
                kick_client]]
            rw [kick_client, sentNonInitIds_close, hnil, List.append_nil]
            exact ⟨⟨⟨done, hdec, hcases, hstrong⟩, hctl⟩, hpump⟩
      | Error id c error =>
          by_cases hsame : s.is_same_client c = true
          · have hc := is_same_client_some s c hsame
            rw [show s.step (BrokerMsg.fromClient g (WSReply.Error id c error))
                = s.handle_response id (AsyncResponseContent.Error error)
              from by
              simp [CommServer.step, CommServer.handleWSReply, hsame]]
            exact handle_response_inv enq s sent id _ c hc
              ⟨⟨⟨done, hdec, hcases, hstrong⟩, hctl⟩, hpump⟩ hnd
          · rw [show s.step (BrokerMsg.fromClient g (WSReply.Error id c error))
                = (s, [kick_client c "invalid client"]) from by
              simp only [Bool.not_eq_true] at hsame
              simp [CommServer.step, CommServer.handleWSReply, hsame,
                kick_client]]
            rw [kick_client, sentNonInitIds_close, hnil, List.append_nil]
            exact ⟨⟨⟨done, hdec, hcases, hstrong⟩, hctl⟩, hpump⟩

/-- A whole run preserves the invariant, starting from any invariant state. -/
theorem run_inv (msgs : List BrokerMsg) : ∀ (enq : List AsyncRequest)
    (s : CommServer) (sent : List String), BrokerInv enq s sent →
    ((enq ++ asyncRequests msgs).map AsyncRequest.id).Nodup →
    BrokerInv (enq ++ asyncRequests msgs) (s.run msgs).1
      (sent ++ sentNonInitIds (s.run msgs).2) := by
  induction msgs with
  | nil =>
      intro enq s sent h _
      simpa [CommServer.run, asyncRequests, sentNonInitIds] using h
  | cons m ms ih =>
      intro enq s sent h hnd
      have hsplit : asyncRequests (m :: ms)
          = asyncRequests [m] ++ asyncRequests ms := by
        cases m <;> simp [asyncRequests]
      have hnd1 : ((enq ++ asyncRequests [m]).map AsyncRequest.id).Nodup := by
        rw [hsplit, ← List.append_assoc, List.map_append] at hnd
        exact (List.nodup_append.mp hnd).1
      have h1 := step_inv enq s sent m h hnd1
      have h2 := ih (enq ++ asyncRequests [m]) (s.step m).1
        (sent ++ sentNonInitIds (s.step m).2) h1
        (by rw [List.append_assoc, ← hsplit]; exact hnd)
      rw [show s.run (m :: ms)
          = (((s.step m).1.run ms).1,
             (s.step m).2 ++ ((s.step m).1.run ms).2) from rfl]
      rw [hsplit, ← List.append_assoc, sentNonInitIds_append,
        ← List.append_assoc]
      exact h2

/-- A freshly constructed broker satisfies the invariant with empty history. -/
theorem broker_inv_init (chain_id : Nat) (chains : Option ChainMap) :
    BrokerInv [] (CommServer.new chain_id chains) [] := by
  refine ⟨⟨⟨[], rfl, Or.inl rfl, ?_⟩, ?_, ?_⟩, ?_⟩
  · intro hf
    simp [CommServer.new] at hf
  · intro hf
    simp [CommServer.new] at hf
  · intro hD
    simp [CommServer.new] at hD
  · intro hD
    simp [CommServer.new] at hD

/-- C2 (counterexample): after connect, handshake, enqueueing the single
request "A" and a response from the attached client whose id matches nothing,
the broker has sent the non-init id sequence ["A", "A"] — a duplicate — while
only one request was enqueued (and it is still queued), and no reply at all
was forwarded to the caller between or after the two emissions.  The claimed
equality (and its no-duplication and emit-only-after-forward parts) is false
on this interleaving. -/
theorem sent_ids_duplicate_cex :
    sentNonInitIds ((CommServer.new 5 Option.none).run dupTrace).2 = ["A", "A"]
    ∧ (asyncRequests dupTrace).map AsyncRequest.id = ["A"]
    ∧ ¬ (sentNonInitIds ((CommServer.new 5 Option.none).run dupTrace).2).Nodup
    ∧ forwardedIds ((CommServer.new 5 Option.none).run dupTrace).2 = [] := by
  decide

/-- C2 (amended): for every interleaving whose enqueued ids are pairwise
distinct, after collapsing consecutive repeats (a request can be re-sent,
consecutively, after a mismatched response or a reconnection) the sequence of
non-init request ids sent to the browser equals, in order, the ids of the
enqueued requests no longer in the queue, possibly followed by the id of the
queue's head when that head is the request currently on the wire. -/
theorem sent_ids_match_enqueued (chain_id : Nat) (chains : Option ChainMap)
    (msgs : List BrokerMsg)
    (hnd : ((asyncRequests msgs).map AsyncRequest.id).Nodup) :
    asyncRequests msgs
      = (asyncRequests msgs).take
          ((asyncRequests msgs).length
            - ((CommServer.new chain_id chains).run msgs).1.pending_messages.length)
        ++ ((CommServer.new chain_id chains).run msgs).1.pending_messages
    ∧ (collapse (sentNonInitIds ((CommServer.new chain_id chains).run msgs).2)
        = ((asyncRequests msgs).take
            ((asyncRequests msgs).length
              - ((CommServer.new chain_id chains).run msgs).1.pending_messages.length)).map
            AsyncRequest.id
      ∨ collapse (sentNonInitIds ((CommServer.new chain_id chains).run msgs).2)
        = ((asyncRequests msgs).take
            ((asyncRequests msgs).length
              - ((CommServer.new chain_id chains).run msgs).1.pending_messages.length)).map
            AsyncRequest.id
          ++ (((CommServer.new chain_id chains).run msgs).1.pending_messages.map
              AsyncRequest.id).take 1) := by
  have h0 := broker_inv_init chain_id chains
  have h := run_inv msgs [] (CommServer.new chain_id chains) [] h0
    (by simpa using hnd)
  simp only [List.nil_append] at h
  obtain ⟨⟨⟨done, hdec, hcases, _⟩, _⟩, _⟩ := h
  have htake : (asyncRequests msgs).take
      ((asyncRequests msgs).length
        - ((CommServer.new chain_id chains).run msgs).1.pending_messages.length)
      = done := by
    rw [hdec]
    have hlen : (done
          ++ ((CommServer.new chain_id chains).run msgs).1.pending_messages).length
        - ((CommServer.new chain_id chains).run msgs).1.pending_messages.length
        = done.length := by
      simp
    rw [hlen, List.take_left]
  constructor
  · rw [htake]
    exact hdec
  · rcases hcases with hA | ⟨p, ps, hp, hB⟩
    · exact Or.inl (by rw [htake]; exact hA)
    · refine Or.inr ?_
      rw [htake, hB, hp]
      simp

/-- C2 (witness): the three-message happy-path run, whose single enqueued
request "A" is in flight. -/
theorem sent_ids_match_enqueued_witness :
    asyncRequests inFlightTrace
      = (asyncRequests inFlightTrace).take
          ((asyncRequests inFlightTrace).length
            - ((CommServer.new 5 Option.none).run inFlightTrace).1.pending_messages.length)
        ++ ((CommServer.new 5 Option.none).run inFlightTrace).1.pending_messages
    ∧ (collapse (sentNonInitIds ((CommServer.new 5 Option.none).run inFlightTrace).2)
        = ((asyncRequests inFlightTrace).take
            ((asyncRequests inFlightTrace).length
              - ((CommServer.new 5 Option.none).run inFlightTrace).1.pending_messages.length)).map
            AsyncRequest.id
      ∨ collapse (sentNonInitIds ((CommServer.new 5 Option.none).run inFlightTrace).2)
        = ((asyncRequests inFlightTrace).take
            ((asyncRequests inFlightTrace).length
              - ((CommServer.new 5 Option.none).run inFlightTrace).1.pending_messages.length)).map
            AsyncRequest.id
          ++ (((CommServer.new 5 Option.none).run inFlightTrace).1.pending_messages.map
              AsyncRequest.id).take 1) :=
  sent_ids_match_enqueued 5 Option.none inFlightTrace (by decide)
